import Mathlib

/-!
Shallow embedding of the consensus core of the repository: ledger state,
operation validation, block-graph admission, finality recomputation, and the
pool collaborator surface, together with the concrete two-thread reference
scenario exercised by `src/consensus/src/tests/scenarios_operations_check.rs`.

The consensus implementation itself (block graph, ledger, operation
validator, finality engine) is not present under `src/` — only its test
scenario, the pool controller trait and an error enum are.  The missing parts
are therefore modelled from the specification, as marked on each definition.
-/

abbrev Address := Nat

abbrev OperationId := Nat

abbrev BlockId := Nat

abbrev EndorsementId := Nat

/-- Slot, a `(period, thread)` pair identifying one production opportunity. -/
structure Slot where
  period : Nat
  thread : Nat
deriving DecidableEq

/-- Modelled from the spec: deterministic, stable assignment of an address to
one of `thread_count` threads (the hash-based assignment function of the
source is absent from src; modelled as reduction modulo the thread count). -/
def Address.get_thread (a : Address) (thread_count : Nat) : Nat :=
  a % thread_count

/-- Modelled from the spec: a signed transfer-like operation with sender,
recipient, amount, fee and a validity period window; the signature check is
abstracted into the boolean `sig_ok` (verifies against the claimed sender). -/
structure Operation where
  id : OperationId
  sender : Address
  recipient : Address
  amount : Nat
  fee : Nat
  validity_start : Nat
  validity_end : Nat
  sig_ok : Bool
deriving DecidableEq

/-- Modelled from the spec: a block header (slot, one parent id per thread,
producer, signature abstracted as `sig_ok`) plus its ordered operations. -/
structure Block where
  id : BlockId
  slot : Slot
  parents : List BlockId
  producer : Address
  sig_ok : Bool
  ops : List Operation
deriving DecidableEq

/-- Block status, as enumerated by the spec's lifecycle. -/
inductive Status where
  | WaitingForSlot
  | WaitingForDependencies
  | Active
  | Discarded
  | Final
deriving DecidableEq

/-- Operation rejection reasons from the spec's validator contract. -/
inductive OpError where
  | OutsideValidityWindow
  | BadSignature
  | DuplicateOperation
  | InsufficientFunds
deriving DecidableEq

/-- Outcome of one admission attempt. -/
inductive Outcome where
  | admitted
  | discarded
  | alreadyKnown
deriving DecidableEq

/-- Modelled from the spec: per-address balance mapping (defaults to zero for
unknown addresses). -/
abbrev Ledger := Address → Nat

/-- Credit `v` coins to address `a`. -/
def credit (l : Ledger) (a : Address) (v : Nat) : Ledger :=
  fun x => if x = a then l x + v else l x

/-- Debit `v` coins from address `a` (callers check sufficiency first). -/
def debit (l : Ledger) (a : Address) (v : Nat) : Ledger :=
  fun x => if x = a then l x - v else l x

/-- Configuration consumed by the consensus core (the fields the claims
need). -/
structure Cfg where
  thread_count : Nat
  block_reward : Nat
  delta_f0 : Nat

/-- Modelled from the spec: one per-operation validation step, checking the
validity window, the signature, single-use across the ancestor set, and
balance sufficiency, in that order; `none` means the operation is valid. -/
def checkOp (l : Ledger) (seen : List OperationId) (period : Nat)
    (op : Operation) : Option OpError :=
  if ¬ (op.validity_start ≤ period ∧ period < op.validity_end) then
    some OpError.OutsideValidityWindow
  else if ¬ op.sig_ok then
    some OpError.BadSignature
  else if op.id ∈ seen then
    some OpError.DuplicateOperation
  else if l op.sender < op.amount + op.fee then
    some OpError.InsufficientFunds
  else
    none

/-- Modelled from the spec: the ledger effect of one operation — debit the
sender by `amount + fee`, credit the recipient by `amount`, credit the block
producer by `fee`. -/
def applyOpEffect (producer : Address) (l : Ledger) (op : Operation) : Ledger :=
  credit (credit (debit l op.sender (op.amount + op.fee)) op.recipient op.amount)
    producer op.fee

/-- Modelled from the spec: replay a block's operations in order against a
ledger, validating each against the current view and the accumulated set of
already-used operation ids; fails on the first invalid operation. -/
def processOps (producer : Address) (period : Nat) :
    Ledger → List OperationId → List Operation → Except OpError Ledger
  | l, _, [] => Except.ok l
  | l, seen, op :: rest =>
    match checkOp l seen period op with
    | some e => Except.error e
    | none => processOps producer period (applyOpEffect producer l op) (op.id :: seen) rest

/-- Record for one block known to the graph: the block, its status, its full
ancestor set including itself (empty for genesis anchors), and the candidate
ledger along its ancestry path after applying it. -/
structure BlockRec where
  block : Block
  status : Status
  ancSelf : List Block
  post : Ledger

/-- Modelled from the spec: the state owned by the consensus actor — the
block graph records, the candidate ledger view, the initial (genesis) ledger
snapshot, and the ordered list of finalized blocks whose effects have been
committed to the final view. -/
structure State where
  cfg : Cfg
  init : Ledger
  recs : List BlockRec
  cand : Ledger
  finalized : List Block

/-- Look a block id up in the graph. -/
def lookupRec (s : State) (i : BlockId) : Option BlockRec :=
  s.recs.find? (fun r => r.block.id == i)

/-- Status of a block id in the graph, when known. -/
def lookupStatus (s : State) (i : BlockId) : Option Status :=
  (lookupRec s i).map BlockRec.status

/-- Look up all parents of a block; `none` when any parent is unknown. -/
def lookupAll (s : State) : List BlockId → Option (List BlockRec)
  | [] => some []
  | i :: is =>
    match lookupRec s i with
    | none => none
    | some r =>
      match lookupAll s is with
      | none => none
      | some rs => some (r :: rs)

/-- A parent may be referenced only once Active or Final. -/
def statusOkB : Status → Bool
  | Status.Active => true
  | Status.Final => true
  | _ => false

/-- Strict slot order: first by period, then by thread. -/
def slotLtB (x y : Slot) : Bool :=
  Nat.blt x.period y.period || (x.period == y.period && Nat.blt x.thread y.thread)

/-- Modelled from the spec: per-thread parent checks — the parent at index
`t` lies in thread `t`, is Active or Final, and strictly precedes the block's
slot; exactly `thread_count` parents are consumed. -/
def parentsOk (cfg : Cfg) (b : Block) : List BlockRec → Nat → Bool
  | [], t => t == cfg.thread_count
  | r :: rs, t =>
    (r.block.slot.thread == t) && statusOkB r.status &&
      slotLtB r.block.slot b.slot && parentsOk cfg b rs (t + 1)

/-- Modelled from the spec: structural well-formedness of a candidate block —
valid block signature, non-genesis slot within the thread range, and one
well-placed parent per thread. -/
def structOk (cfg : Cfg) (b : Block) (prs : List BlockRec) : Bool :=
  b.sig_ok && Nat.ble 1 b.slot.period && Nat.blt b.slot.thread cfg.thread_count &&
    parentsOk cfg b prs 0

/-- Union (deduplicated) of the ancestor sets of the chosen parents. -/
def ancOf (prs : List BlockRec) : List Block :=
  (prs.foldr (fun r acc => r.ancSelf ++ acc) []).dedup

/-- All operation ids appearing in blocks of an ancestor set. -/
def opIdsOf (anc : List Block) : List OperationId :=
  anc.foldr (fun blk acc => blk.ops.map Operation.id ++ acc) []

/-- Total order key on blocks for deterministic replay: slot order then id. -/
def blockLeB (x y : Block) : Bool :=
  slotLtB x.slot y.slot ||
    (x.slot == y.slot && Nat.ble x.id y.id)

/-- Insert a block into a list sorted by `blockLeB`. -/
def insertSorted (b : Block) : List Block → List Block
  | [] => [b]
  | c :: cs => if blockLeB b c then b :: c :: cs else c :: insertSorted b cs

/-- Sort a set of blocks by slot order (then id) for replay. -/
def sortBlocks (l : List Block) : List Block :=
  l.foldr insertSorted []

/-- Modelled from the spec: the unchecked ledger effect of one already-valid
block — credit the producer with the block reward, then apply each
operation's transfer effect in order. -/
def replayBlock (cfg : Cfg) (l : Ledger) (b : Block) : Ledger :=
  b.ops.foldl (applyOpEffect b.producer) (credit l b.producer cfg.block_reward)

/-- Replay a slot-ordered list of blocks from a base ledger. -/
def replayBlocks (cfg : Cfg) (l : Ledger) (bs : List Block) : Ledger :=
  bs.foldl (replayBlock cfg) l

/-- Modelled from the spec: the candidate ledger view along a block's
ancestry path, rebuilt from the genesis snapshot by replaying the ordered
effects of the chosen parents' full ancestor set. -/
def blockPreOf (cfg : Cfg) (init : Ledger) (prs : List BlockRec) : Ledger :=
  replayBlocks cfg init (sortBlocks (ancOf prs))

/-- Candidate ledger along a candidate block's ancestry path (genesis
snapshot when some parent is unknown). -/
def blockPre (s : State) (b : Block) : Ledger :=
  match lookupAll s b.parents with
  | some prs => blockPreOf s.cfg s.init prs
  | none => s.init

/-- Operation ids already used in the candidate block's ancestor set. -/
def seenS (s : State) (b : Block) : List OperationId :=
  match lookupAll s b.parents with
  | some prs => opIdsOf (ancOf prs)
  | none => []

/-- Ancestor set (excluding the block itself) of a candidate block. -/
def ancS (s : State) (b : Block) : List Block :=
  match lookupAll s b.parents with
  | some prs => ancOf prs
  | none => []

/-- Structural check of a candidate block against the current graph; fails
when a parent is unknown. -/
def structOkS (s : State) (b : Block) : Bool :=
  match lookupAll s b.parents with
  | some prs => structOk s.cfg b prs
  | none => false

/-- Modelled from the spec: full operation-set validation of a candidate
block — the producer is credited the block reward on the candidate view
along the ancestry path, then every operation is replayed through the
validator; returns the resulting ledger, or the first rejection. -/
def opsCheck (s : State) (b : Block) : Except OpError Ledger :=
  processOps b.producer b.slot.period
    (credit (blockPre s b) b.producer s.cfg.block_reward) (seenS s b) b.ops

/-- Rejection reason of a candidate block's operation set, when any. -/
def opsErr (s : State) (b : Block) : Option OpError :=
  match opsCheck s b with
  | Except.error e => some e
  | Except.ok _ => none

/-- Graph record for a discarded block (no ledger effect is retained). -/
def discardRec (b : Block) : BlockRec :=
  ⟨b, Status.Discarded, [], fun _ => 0⟩

/-- Modelled from the spec: block admission — ignore an already-known id;
verify structural well-formedness, then replay the operations through the
validator; on success apply all effects (including the reward) to the
candidate ledger and mark the block Active; on any failure mark it Discarded
and leave the ledger untouched. -/
def admitBlock (s : State) (b : Block) : State × Outcome :=
  match lookupRec s b.id with
  | some _ => (s, Outcome.alreadyKnown)
  | none =>
    if structOkS s b then
      match opsCheck s b with
      | Except.error _ =>
        ({ s with recs := discardRec b :: s.recs }, Outcome.discarded)
      | Except.ok l =>
        ({ s with
            recs := ⟨b, Status.Active, b :: ancS s b, l⟩ :: s.recs
            cand := l },
          Outcome.admitted)
    else
      ({ s with recs := discardRec b :: s.recs }, Outcome.discarded)

/-- Number of Active or Final descendants of a block in the graph. -/
def descCount (recs : List BlockRec) (b : Block) : Nat :=
  (recs.filter (fun r =>
    statusOkB r.status && r.ancSelf.contains b && !(r.block == b))).length

/-- Modelled from the spec: promote an Active block to Final once it has
accumulated enough descendant weight relative to the `delta_f0` finality
depth; all other statuses are left unchanged. -/
def promoteRec (cfg : Cfg) (recs : List BlockRec) (r : BlockRec) : BlockRec :=
  if r.status = Status.Active ∧ cfg.delta_f0 ≤ descCount recs r.block then
    { r with status := Status.Final }
  else
    r

/-- Modelled from the spec: finality recomputation — walk the graph, promote
every Active block meeting the finality threshold to Final, and commit the
newly final blocks' effects into the final view in slot order (the final
history is append-only). -/
def recomputeFinality (s : State) : State :=
  let newly := (s.recs.filter (fun r =>
    decide (r.status = Status.Active ∧ s.cfg.delta_f0 ≤ descCount s.recs r.block))).map
      BlockRec.block
  { s with
      recs := s.recs.map (promoteRec s.cfg s.recs)
      finalized := s.finalized ++ sortBlocks newly }

/-- One full admission step: admission followed by the synchronous finality
recomputation. -/
def stepAdmit (s : State) (b : Block) : State × Outcome :=
  let p := admitBlock s b
  (recomputeFinality p.1, p.2)

/-- The final ledger view: genesis snapshot plus the committed effects of the
finalized blocks, in order. -/
def finalView (s : State) : Ledger :=
  replayBlocks s.cfg s.init s.finalized

/-- Per-address ledger datum, mirroring `LedgerData` of the source tests. -/
structure LedgerData where
  balance : Nat
deriving DecidableEq

/-- Balance accessor, mirroring `get_balance` of the source tests. -/
def LedgerData.get_balance (d : LedgerData) : Nat := d.balance

/-- Result of a ledger query: candidate and final data per address. -/
structure LedgerDataRes where
  candidate_data : Address → LedgerData
  final_data : Address → LedgerData

/-- Modelled from the spec: the read-only `get_ledger_data` query answered by
the consensus actor from its owned state — returns the candidate and final
balances of the requested addresses and does not mutate the state. -/
def get_ledger_data (s : State) (addrs : List Address) : LedgerDataRes × State :=
  (⟨fun a => if a ∈ addrs then ⟨s.cand a⟩ else ⟨0⟩,
    fun a => if a ∈ addrs then ⟨finalView s a⟩ else ⟨0⟩⟩, s)

/-! Concrete reference scenario of `scenarios_operations_check.rs`: two
threads, address `0` (thread 0) funded with 5 at genesis, address `1`
(thread 1) empty, block reward 1. -/

/-- Scenario configuration: two threads, reward 1, large finality depth. -/
def scenCfg : Cfg := ⟨2, 1, 1000⟩

/-- Scenario genesis ledger: address 0 holds 5 coins. -/
def initL : Ledger := fun a => if a = 0 then 5 else 0

/-- Genesis anchor of thread 0. -/
def g0 : Block := ⟨100, ⟨0, 0⟩, [], 0, true, []⟩

/-- Genesis anchor of thread 1. -/
def g1 : Block := ⟨101, ⟨0, 1⟩, [], 0, true, []⟩

/-- Scenario start state: the two genesis anchors, candidate view at the
genesis snapshot. -/
def s0 : State :=
  ⟨scenCfg, initL, [⟨g0, Status.Final, [], initL⟩, ⟨g1, Status.Final, [], initL⟩],
    initL, []⟩

/-- Scenario operation: transfer 5 from address 0 to address 1 with fee 1,
valid for periods 0 to 4. -/
def op1 : Operation := ⟨201, 0, 1, 5, 1, 0, 5, true⟩

/-- Scenario block A at slot (1,0), produced by address 0, carrying `op1`. -/
def blockA : Block := ⟨110, ⟨1, 0⟩, [100, 101], 0, true, [op1]⟩

/-- State after admitting block A. -/
def s1 : State := (admitBlock s0 blockA).1

/-- Scenario operation: transfer 10 from address 1 (holding only 5) with
fee 1. -/
def op2 : Operation := ⟨202, 1, 0, 10, 1, 0, 9, true⟩

/-- Scenario invalid block at slot (1,1) carrying the overdraft `op2`. -/
def block2b : Block := ⟨111, ⟨1, 1⟩, [110, 101], 0, true, [op2]⟩

/-- State after the rejected admission of `block2b` (unchanged ledger). -/
def s2 : State := (admitBlock s1 block2b).1

/-- Scenario empty block B at slot (1,1), produced by address 0 whose own
thread is 0. -/
def blockB : Block := ⟨112, ⟨1, 1⟩, [110, 101], 0, true, []⟩

/-- State after admitting the empty block B. -/
def s3 : State := (admitBlock s2 blockB).1

/-- Scenario block at slot (2,0) reusing the already-included `op1`. -/
def block1c : Block := ⟨113, ⟨2, 0⟩, [110, 112], 0, true, [op1]⟩

/-- Operation whose validity window `[0, 2)` excludes period 2. -/
def opLate : Operation := ⟨203, 0, 0, 1, 0, 0, 2, true⟩

/-- Block at slot (2,1) carrying the out-of-window `opLate`. -/
def blockD : Block := ⟨114, ⟨2, 1⟩, [110, 112], 0, true, [opLate]⟩

/-- Lifecycle order on statuses: a status may only move forward along
Waiting* to Active to Final (with Discarded as the terminal rejection);
Final and Discarded never change. -/
def statusForward : Status → Status → Prop
  | Status.Final, r => r = Status.Final
  | Status.Discarded, r => r = Status.Discarded
  | Status.Active, r =>
      r = Status.Active ∨ r = Status.Final ∨ r = Status.Discarded
  | _, _ => True

/-- Pool controller trait from `src/massa-pool-exports/src/controller_traits.rs`,
embedded over an abstract pool state `σ`: `&mut self` methods become state
transformers, `&self` methods become observations (`clone_box`, Rust boxing
plumbing, has no shallow-embedding counterpart). -/
structure PoolController (σ : Type) where
  add_operations : σ → List OperationId → σ
  add_endorsements : σ → Finset EndorsementId → σ
  notify_final_slot : σ → Slot → σ
  get_block_operations : σ → Slot → List OperationId
  get_endorsements : σ → BlockId → Slot → List (Option EndorsementId)

/-- Pool collaborator surface as worded by the spec's interface section, the
comparison target for the source trait: `add_operations(ids)`,
`add_endorsements(ids)`, `notify_final_slot(slot)`,
`get_block_operations(slot) -> ids`, `get_endorsements(target_block,
target_slot)` returning one optional endorsement id per position. -/
structure PoolSurfaceSpec (σ : Type) where
  add_operations : σ → List OperationId → σ
  add_endorsements : σ → Finset EndorsementId → σ
  notify_final_slot : σ → Slot → σ
  get_block_operations : σ → Slot → List OperationId
  get_endorsements : σ → BlockId → Slot → List (Option EndorsementId)

/-- View a source pool controller as the spec's surface. -/
def PoolController.toSpec (σ : Type) (pc : PoolController σ) : PoolSurfaceSpec σ :=
  ⟨pc.add_operations, pc.add_endorsements, pc.notify_final_slot,
    pc.get_block_operations, pc.get_endorsements⟩

/-- View the spec's surface as a source pool controller. -/
def PoolSurfaceSpec.toCtrl (σ : Type) (ps : PoolSurfaceSpec σ) : PoolController σ :=
  ⟨ps.add_operations, ps.add_endorsements, ps.notify_final_slot,
    ps.get_block_operations, ps.get_endorsements⟩

/-- Modelled from the spec: a pool implementation (no implementation of the
trait is under src) whose endorsement query answers with one entry per
endorsement position of the target slot, holding `none` in place wherever no
endorsement is available instead of omitting the position. -/
def mockPool (endorsement_count : Nat)
    (avail : BlockId → Slot → Nat → Option EndorsementId) : PoolController Unit where
  add_operations := fun s _ => s
  add_endorsements := fun s _ => s
  notify_final_slot := fun s _ => s
  get_block_operations := fun _ _ => []
  get_endorsements := fun _ tb ts => (List.range endorsement_count).map (avail tb ts)

/-- Example availability map: only endorsement position 1 is filled. -/
def availEx : BlockId → Slot → Nat → Option EndorsementId :=
  fun _ _ i => if i = 1 then some 7 else none

example : (admitBlock s0 blockA).2 = Outcome.admitted := by decide
example : s1.cand 0 = 1 ∧ s1.cand 1 = 5 := by decide
example : opsErr s1 block2b = some OpError.InsufficientFunds := by decide
example : (admitBlock s1 block2b).2 = Outcome.discarded := by decide
example : (admitBlock s2 blockB).2 = Outcome.admitted := by decide
example : s3.cand 1 = 5 := by decide
example : (admitBlock s3 block1c).2 = Outcome.discarded := by decide
example : opsErr s3 block1c = some OpError.DuplicateOperation := by decide
example : opsErr s3 blockD = some OpError.OutsideValidityWindow := by decide
example : (admitBlock s3 blockD).2 = Outcome.discarded := by decide

lemma checkOp_none_inv (l : Ledger) (seen : List OperationId) (period : Nat)
    (op : Operation) (h : checkOp l seen period op = none) :
    (op.validity_start ≤ period ∧ period < op.validity_end) ∧ op.sig_ok = true ∧
      op.id ∉ seen ∧ op.amount + op.fee ≤ l op.sender := by
  unfold checkOp at h
  by_cases h1 : op.validity_start ≤ period ∧ period < op.validity_end
  · by_cases h2 : op.sig_ok = true
    · by_cases h3 : op.id ∈ seen
      · simp [h1, h2, h3] at h
      · by_cases h4 : l op.sender < op.amount + op.fee
        · simp [h1, h2, h3, h4] at h
        · exact ⟨h1, h2, h3, by omega⟩
    · simp [h1, h2] at h
  · simp [h1] at h

lemma checkOp_window_bad (l : Ledger) (seen : List OperationId) (period : Nat)
    (op : Operation) (h : op.validity_end ≤ period ∨ period < op.validity_start) :
    checkOp l seen period op = some OpError.OutsideValidityWindow := by
  have hw : ¬ (op.validity_start ≤ period ∧ period < op.validity_end) := by omega
  unfold checkOp
  simp [hw]

lemma checkOp_dup (l : Ledger) (seen : List OperationId) (period : Nat)
    (op : Operation) (hw : op.validity_start ≤ period ∧ period < op.validity_end)
    (hs : op.sig_ok = true) (hd : op.id ∈ seen) :
    checkOp l seen period op = some OpError.DuplicateOperation := by
  unfold checkOp
  simp [hw.1, hw.2, hs, hd]

lemma processOps_error_of_bad (p : Address) (period : Nat) :
    ∀ (ops : List Operation) (l : Ledger) (seen : List OperationId),
      (∃ op ∈ ops, ∀ (l2 : Ledger) (seen2 : List OperationId), seen ⊆ seen2 →
        (checkOp l2 seen2 period op).isSome = true) →
      ∃ e, processOps p period l seen ops = Except.error e := by
  intro ops
  induction ops with
  | nil =>
    rintro l seen ⟨op, hmem, -⟩
    simp at hmem
  | cons c rest ih =>
    rintro l seen ⟨op, hmem, hbad⟩
    unfold processOps
    cases hc : checkOp l seen period c with
    | some e => exact ⟨e, by simp⟩
    | none =>
      rcases List.mem_cons.mp hmem with h | h
      · subst h
        have := hbad l seen (fun x hx => hx)
        rw [hc] at this
        simp at this
      · have hrest := ih (applyOpEffect p l c) (c.id :: seen)
          ⟨op, h, fun l2 s2 hsub =>
            hbad l2 s2 (fun x hx => hsub (List.mem_cons_of_mem _ hx))⟩
        simpa using hrest

lemma opsErr_some_iff (s : State) (b : Block) (e : OpError) :
    opsErr s b = some e ↔ opsCheck s b = Except.error e := by
  unfold opsErr
  cases h : opsCheck s b <;> simp

lemma admitBlock_eq_of_err (s : State) (b : Block) (e : OpError)
    (hfresh : lookupRec s b.id = none) (he : opsErr s b = some e) :
    admitBlock s b = ({ s with recs := discardRec b :: s.recs }, Outcome.discarded) := by
  unfold admitBlock
  rw [hfresh]
  by_cases hs : structOkS s b
  · rw [(opsErr_some_iff s b e).mp he]
    simp [hs]
  · simp [hs]

lemma lookupStatus_discard (s : State) (b : Block) :
    lookupStatus { s with recs := discardRec b :: s.recs } b.id =
      some Status.Discarded := by
  unfold lookupStatus lookupRec discardRec
  simp [List.find?]

lemma sum_credit (S : Finset Address) (l : Ledger) (a : Address) (v : Nat)
    (h : a ∈ S) : (∑ x in S, credit l a v x) = (∑ x in S, l x) + v := by
  have h1 : ∀ x ∈ S, credit l a v x = l x + (if x = a then v else 0) := by
    intro x _
    unfold credit
    by_cases hx : x = a <;> simp [hx]
  rw [Finset.sum_congr rfl h1, Finset.sum_add_distrib,
    Finset.sum_ite_eq' S a (fun _ => v)]
  simp [h]

lemma sum_debit (S : Finset Address) (l : Ledger) (a : Address) (v : Nat)
    (h : a ∈ S) (hv : v ≤ l a) :
    (∑ x in S, debit l a v x) + v = ∑ x in S, l x := by
  have h1 : ∀ x ∈ S.erase a, debit l a v x = l x := by
    intro x hx
    unfold debit
    simp [Finset.ne_of_mem_erase hx]
  have e1 : (∑ x in S, debit l a v x) =
      debit l a v a + ∑ x in S.erase a, debit l a v x :=
    (Finset.add_sum_erase S _ h).symm
  have e2 : (∑ x in S, l x) = l a + ∑ x in S.erase a, l x :=
    (Finset.add_sum_erase S l h).symm
  have e3 : (∑ x in S.erase a, debit l a v x) = ∑ x in S.erase a, l x :=
    Finset.sum_congr rfl h1
  have hda : debit l a v a = l a - v := by unfold debit; simp
  rw [e1, e3, hda, e2]
  omega

lemma sum_applyOpEffect (S : Finset Address) (p : Address) (l : Ledger)
    (op : Operation) (hs : op.sender ∈ S) (hr : op.recipient ∈ S) (hp : p ∈ S)
    (hv : op.amount + op.fee ≤ l op.sender) :
    (∑ x in S, applyOpEffect p l op x) = ∑ x in S, l x := by
  unfold applyOpEffect
  rw [sum_credit S _ p op.fee hp, sum_credit S _ op.recipient op.amount hr]
  have hd := sum_debit S l op.sender (op.amount + op.fee) hs hv
  omega

lemma processOps_ok_sum (S : Finset Address) (p : Address) (period : Nat) :
    ∀ (ops : List Operation) (l : Ledger) (seen : List OperationId) (l2 : Ledger),
      processOps p period l seen ops = Except.ok l2 →
      (∀ op ∈ ops, op.sender ∈ S ∧ op.recipient ∈ S) → p ∈ S →
      (∑ x in S, l2 x) = ∑ x in S, l x := by
  intro ops
  induction ops with
  | nil =>
    intro l seen l2 h _ _
    unfold processOps at h
    simp at h
    rw [h]
  | cons c rest ih =>
    intro l seen l2 h hops hp
    unfold processOps at h
    cases hc : checkOp l seen period c with
    | some e => rw [hc] at h; simp at h
    | none =>
      rw [hc] at h
      have hv := (checkOp_none_inv l seen period c hc).2.2.2
      have hstep := sum_applyOpEffect S p l c (hops c (by simp)).1
        (hops c (by simp)).2 hp hv
      have hrest := ih (applyOpEffect p l c) (c.id :: seen) l2 h
        (fun o ho => hops o (List.mem_cons_of_mem _ ho)) hp
      omega

/-- C1: a block whose operation set contains at least one invalid operation
(any rejection of the per-operation validator, for example an overdraft on
the candidate view along the block's ancestry path) is Discarded as a whole,
and none of its ledger effects — neither any transfer or fee nor the block
reward — reaches the candidate ledger. -/
theorem c1_invalid_op_discards (s : State) (b : Block) (e : OpError)
    (hfresh : (lookupRec s b.id).isNone = true)
    (he : opsErr s b = some e) :
    (admitBlock s b).2 = Outcome.discarded ∧
    (admitBlock s b).1.cand = s.cand ∧
    lookupStatus (admitBlock s b).1 b.id = some Status.Discarded := by
  have hf : lookupRec s b.id = none := Option.isNone_iff_eq_none.mp hfresh
  have hE := admitBlock_eq_of_err s b e hf he
  rw [hE]
  exact ⟨rfl, rfl, lookupStatus_discard s b⟩

/-- Witness for C1 at the reference scenario: the block at slot (1,1) whose
operation overdraws address 1 is discarded and the candidate ledger is left
untouched. -/
theorem c1_invalid_op_discards_witness :
    (admitBlock s1 block2b).2 = Outcome.discarded ∧
    (admitBlock s1 block2b).1.cand = s1.cand ∧
    lookupStatus (admitBlock s1 block2b).1 block2b.id = some Status.Discarded :=
  c1_invalid_op_discards s1 block2b OpError.InsufficientFunds (by decide) (by decide)

/-- C2: in the two-thread reference scenario (address 0 funded with 5 at
genesis), block A at slot (1,0) transferring 5 with fee 1 and reward 1 to
its producer (also address 0) is admitted and leaves address 0 with a
candidate balance of exactly 1, although the debit `amount + fee = 6`
exceeds the prior balance 5 along the ancestry path. -/
theorem c2_reference_scenario :
    (admitBlock s0 blockA).2 = Outcome.admitted ∧
    s1.cand 0 = 1 ∧ s1.cand 1 = 5 ∧
    blockPre s0 blockA 0 = 5 ∧
    blockPre s0 blockA 0 < op1.amount + op1.fee ∧
    (get_ledger_data s1 [0]).1.candidate_data 0 = ⟨1⟩ := by
  decide

/-- C3: an operation whose id already appears in the candidate block's full
ancestor set is rejected as a duplicate for every possible sender balance,
and the containing block is discarded with no candidate-ledger effect. -/
theorem c3_duplicate_in_ancestry (s : State) (b : Block) (op : Operation)
    (hfresh : (lookupRec s b.id).isNone = true)
    (hop : op ∈ b.ops)
    (hdup : op.id ∈ seenS s b)
    (hw : op.validity_start ≤ b.slot.period ∧ b.slot.period < op.validity_end)
    (hsig : op.sig_ok = true) :
    (∀ l : Ledger,
      checkOp l (seenS s b) b.slot.period op = some OpError.DuplicateOperation) ∧
    (admitBlock s b).2 = Outcome.discarded ∧
    (admitBlock s b).1.cand = s.cand ∧
    lookupStatus (admitBlock s b).1 b.id = some Status.Discarded := by
  have hf : lookupRec s b.id = none := Option.isNone_iff_eq_none.mp hfresh
  have hbad : ∃ e, opsCheck s b = Except.error e := by
    unfold opsCheck
    exact processOps_error_of_bad b.producer b.slot.period b.ops _ (seenS s b)
      ⟨op, hop, fun l2 s2 hsub => by
        rw [checkOp_dup l2 s2 b.slot.period op hw hsig (hsub hdup)]; rfl⟩
  obtain ⟨e, he⟩ := hbad
  have hE := admitBlock_eq_of_err s b e hf ((opsErr_some_iff s b e).mpr he)
  rw [hE]
  exact ⟨fun l => checkOp_dup l (seenS s b) b.slot.period op hw hsig hdup,
    rfl, rfl, lookupStatus_discard s b⟩

/-- Witness for C3 at the reference scenario: the block at slot (2,0) reusing
the operation already contained in ancestor block A is rejected as a
duplicate — even against a ledger granting every address a huge balance —
and discarded without touching the candidate ledger. -/
theorem c3_duplicate_in_ancestry_witness :
    checkOp (fun _ => 1000000) (seenS s3 block1c) block1c.slot.period op1 =
      some OpError.DuplicateOperation ∧
    (admitBlock s3 block1c).2 = Outcome.discarded ∧
    (admitBlock s3 block1c).1.cand = s3.cand := by
  have h := c3_duplicate_in_ancestry s3 block1c op1 (by decide) (by decide)
    (by decide) (by decide) (by decide)
  exact ⟨h.1 (fun _ => 1000000), h.2.1, h.2.2.1⟩

/-- C4: an operation whose validity window excludes the block's slot period
(`validity_end ≤ period` or `validity_start > period`) is rejected with
OutsideValidityWindow for every ledger and every seen-set — hence regardless
of the sender's balance — and the containing block is discarded with no
candidate-ledger effect. -/
theorem c4_outside_validity_window (s : State) (b : Block) (op : Operation)
    (hfresh : (lookupRec s b.id).isNone = true)
    (hop : op ∈ b.ops)
    (hw : op.validity_end ≤ b.slot.period ∨ b.slot.period < op.validity_start) :
    (∀ (l : Ledger) (seen : List OperationId),
      checkOp l seen b.slot.period op = some OpError.OutsideValidityWindow) ∧
    (admitBlock s b).2 = Outcome.discarded ∧
    (admitBlock s b).1.cand = s.cand ∧
    lookupStatus (admitBlock s b).1 b.id = some Status.Discarded := by
  have hf : lookupRec s b.id = none := Option.isNone_iff_eq_none.mp hfresh
  have hbad : ∃ e, opsCheck s b = Except.error e := by
    unfold opsCheck
    exact processOps_error_of_bad b.producer b.slot.period b.ops _ (seenS s b)
      ⟨op, hop, fun l2 s2 _ => by
        rw [checkOp_window_bad l2 s2 b.slot.period op hw]; rfl⟩
  obtain ⟨e, he⟩ := hbad
  have hE := admitBlock_eq_of_err s b e hf ((opsErr_some_iff s b e).mpr he)
  rw [hE]
  exact ⟨fun l seen => checkOp_window_bad l seen b.slot.period op hw,
    rfl, rfl, lookupStatus_discard s b⟩

/-- Witness for C4 at the reference scenario: the block at slot (2,1)
carrying an operation whose window `[0, 2)` excludes period 2 is rejected
with OutsideValidityWindow (shown against a ledger with ample balance) and
discarded without touching the candidate ledger. -/
theorem c4_outside_validity_window_witness :
    checkOp (fun _ => 99) [] blockD.slot.period opLate =
      some OpError.OutsideValidityWindow ∧
    (admitBlock s3 blockD).2 = Outcome.discarded ∧
    (admitBlock s3 blockD).1.cand = s3.cand := by
  have h := c4_outside_validity_window s3 blockD opLate (by decide) (by decide)
    (by decide)
  exact ⟨h.1 (fun _ => 99) [], h.2.1, h.2.2.1⟩

/-- C5: for every successfully admitted block, summed over any address set
covering the block's producer and every operation's sender and recipient,
the total candidate balance after admission equals the total along the
block's ancestry path before admission plus exactly one block reward —
transfers are zero-sum, only the reward mints value. -/
theorem c5_balance_conservation (s : State) (b : Block) (S : Finset Address)
    (hadm : (admitBlock s b).2 = Outcome.admitted)
    (hp : b.producer ∈ S)
    (hops : ∀ op ∈ b.ops, op.sender ∈ S ∧ op.recipient ∈ S) :
    (∑ x in S, (admitBlock s b).1.cand x) =
      (∑ x in S, blockPre s b x) + s.cfg.block_reward := by
  cases hk : lookupRec s b.id with
  | some r =>
    unfold admitBlock at hadm
    rw [hk] at hadm
    simp at hadm
  | none =>
    by_cases hs : structOkS s b
    · cases hc : opsCheck s b with
      | error e =>
        unfold admitBlock at hadm
        rw [hk] at hadm
        simp [hs, hc] at hadm
      | ok l =>
        have hEq : (admitBlock s b).1.cand = l := by
          unfold admitBlock
          rw [hk]
          simp [hs, hc]
        rw [hEq]
        have hpo : processOps b.producer b.slot.period
            (credit (blockPre s b) b.producer s.cfg.block_reward)
            (seenS s b) b.ops = Except.ok l := by
          unfold opsCheck at hc
          exact hc
        have h1 := processOps_ok_sum S b.producer b.slot.period b.ops _
          (seenS s b) l hpo hops hp
        rw [h1, sum_credit S (blockPre s b) b.producer s.cfg.block_reward hp]
    · unfold admitBlock at hadm
      rw [hk] at hadm
      simp [hs] at hadm

/-- Witness for C5 at the reference scenario: admitting block A takes the
total candidate balance over addresses 0 and 1 from 5 to 6, exactly one
block reward more. -/
theorem c5_balance_conservation_witness :
    (∑ x in ({0, 1} : Finset Address), (admitBlock s0 blockA).1.cand x) =
      (∑ x in ({0, 1} : Finset Address), blockPre s0 blockA x) +
        s0.cfg.block_reward :=
  c5_balance_conservation s0 blockA {0, 1} (by decide) (by decide) (by decide)

lemma find?_cons_skip (r0 : BlockRec) (rs : List BlockRec) (i : BlockId)
    (hne : (r0.block.id == i) = false) :
    List.find? (fun r => r.block.id == i) (r0 :: rs) =
      List.find? (fun r => r.block.id == i) rs := by
  simp [List.find?, hne]

lemma admitBlock_lookup_preserve (s : State) (b : Block) (i : BlockId)
    (r : BlockRec) (h : lookupRec s i = some r) :
    lookupRec (admitBlock s b).1 i = some r := by
  cases hk : lookupRec s b.id with
  | some r2 =>
    unfold admitBlock
    rw [hk]
    exact h
  | none =>
    have hne : (b.id == i) = false := by
      by_cases hbi : b.id = i
      · rw [hbi] at hk
        rw [h] at hk
        cases hk
      · simp [hbi]
    unfold admitBlock
    rw [hk]
    by_cases hs : structOkS s b
    · cases hc : opsCheck s b with
      | error e =>
        simp only [hs, hc, if_true]
        unfold lookupRec at h ⊢
        exact (find?_cons_skip (discardRec b) s.recs i hne).trans h
      | ok l =>
        simp only [hs, hc, if_true]
        unfold lookupRec at h ⊢
        exact (find?_cons_skip ⟨b, Status.Active, b :: ancS s b, l⟩ s.recs i
          hne).trans h
    · simp only [hs, if_false]
      unfold lookupRec at h ⊢
      exact (find?_cons_skip (discardRec b) s.recs i hne).trans h

lemma promoteRec_block (c : Cfg) (rs : List BlockRec) (r : BlockRec) :
    (promoteRec c rs r).block = r.block := by
  unfold promoteRec
  split <;> rfl

lemma promoteRec_status (c : Cfg) (rs : List BlockRec) (r : BlockRec) :
    (promoteRec c rs r).status = r.status ∨
    (r.status = Status.Active ∧ (promoteRec c rs r).status = Status.Final) := by
  unfold promoteRec
  split
  · next h => exact Or.inr ⟨h.1, rfl⟩
  · exact Or.inl rfl

lemma find?_map_block_pres (f : BlockRec → BlockRec)
    (hf : ∀ r, (f r).block = r.block) (i : BlockId) :
    ∀ rs : List BlockRec,
      List.find? (fun r => r.block.id == i) (rs.map f) =
        (List.find? (fun r => r.block.id == i) rs).map f := by
  intro rs
  induction rs with
  | nil => rfl
  | cons r rs ih =>
    cases hp : (r.block.id == i) with
    | true => simp [List.find?, hf r, hp]
    | false => simp [List.find?, hf r, hp, ih]

lemma recompute_lookup (s : State) (i : BlockId) (r : BlockRec)
    (h : lookupRec s i = some r) :
    lookupRec (recomputeFinality s) i = some (promoteRec s.cfg s.recs r) := by
  unfold lookupRec at h ⊢
  unfold recomputeFinality
  simp only []
  rw [find?_map_block_pres (promoteRec s.cfg s.recs)
    (promoteRec_block s.cfg s.recs) i s.recs, h]
  rfl

lemma admitBlock_finalized (s : State) (b : Block) :
    (admitBlock s b).1.finalized = s.finalized := by
  unfold admitBlock
  cases hk : lookupRec s b.id with
  | some r2 => rfl
  | none =>
    by_cases hs : structOkS s b
    · cases hc : opsCheck s b with
      | error e => simp [hs, hc]
      | ok l => simp [hs, hc]
    · simp [hs]

lemma take_len_append (l1 l2 : List Block) : (l1 ++ l2).take l1.length = l1 := by
  induction l1 with
  | nil => rfl
  | cons a l ih => simp [ih]

lemma statusForward_refl (r : Status) : statusForward r r := by
  cases r <;> simp [statusForward]

/-- C6: once a block is Final, any later admission step (admission followed
by the synchronous finality recomputation) leaves it Final; more generally a
block's status only ever moves forward along the lifecycle, and the
committed final history is append-only — the already-committed prefix of
finalized blocks, hence their final-ledger effect, is unchanged. -/
theorem c6_finality_monotone (s : State) (b : Block) (i : BlockId)
    (st st2 : Status)
    (h1 : lookupStatus s i = some st)
    (h2 : lookupStatus (stepAdmit s b).1 i = some st2) :
    statusForward st st2 ∧ (st = Status.Final → st2 = Status.Final) ∧
    (stepAdmit s b).1.finalized.take s.finalized.length = s.finalized := by
  obtain ⟨r, hr, hst⟩ : ∃ r, lookupRec s i = some r ∧ r.status = st := by
    unfold lookupStatus at h1
    cases hl : lookupRec s i with
    | none => rw [hl] at h1; cases h1
    | some r =>
      rw [hl] at h1
      exact ⟨r, rfl, Option.some.inj h1⟩
  have hr1 := admitBlock_lookup_preserve s b i r hr
  have hr2 := recompute_lookup (admitBlock s b).1 i r hr1
  have hst2 : st2 =
      (promoteRec (admitBlock s b).1.cfg (admitBlock s b).1.recs r).status := by
    unfold stepAdmit lookupStatus at h2
    simp only [] at h2
    rw [hr2] at h2
    exact (Option.some.inj h2).symm
  have hfin : (stepAdmit s b).1.finalized.take s.finalized.length =
      s.finalized := by
    unfold stepAdmit recomputeFinality
    simp only []
    rw [admitBlock_finalized s b]
    exact take_len_append s.finalized _
  rcases promoteRec_status (admitBlock s b).1.cfg (admitBlock s b).1.recs r with
    he | ⟨ha, he⟩
  · refine ⟨?_, ?_, hfin⟩
    · rw [hst2, he, hst]
      exact statusForward_refl st
    · intro hF
      rw [hst2, he, hst]
      exact hF
  · refine ⟨?_, ?_, hfin⟩
    · rw [hst2, he, ← hst, ha]
      simp [statusForward]
    · intro _
      rw [hst2]
      exact he

/-- Witness for C6 at the reference scenario: the Final genesis anchor of
thread 0 stays Final across a full admission step, and the committed final
history prefix is unchanged. -/
theorem c6_finality_monotone_witness :
    statusForward Status.Final Status.Final ∧
    (Status.Final = Status.Final → Status.Final = Status.Final) ∧
    (stepAdmit s1 block2b).1.finalized.take s1.finalized.length =
      s1.finalized :=
  c6_finality_monotone s1 block2b 100 Status.Final Status.Final
    (by decide) (by decide)

/-- C7: the pool collaborator surface consumed by the consensus core is
exactly the spec's five operations with the stated argument and result
shapes — the source trait and the spec-worded surface are in bijective
correspondence, field by field. -/
theorem c7_pool_surface (σ : Type) (pc : PoolController σ)
    (ps : PoolSurfaceSpec σ) :
    PoolSurfaceSpec.toCtrl σ (PoolController.toSpec σ pc) = pc ∧
    PoolController.toSpec σ (PoolSurfaceSpec.toCtrl σ ps) = ps :=
  ⟨rfl, rfl⟩

/-- C8: `get_ledger_data` does not mutate the state, and two consecutive
calls with no intervening admission return identical results (both the
candidate and the final views). -/
theorem c8_get_ledger_data_pure (s : State) (addrs : List Address) :
    (get_ledger_data s addrs).2 = s ∧
    (get_ledger_data (get_ledger_data s addrs).2 addrs).1 =
      (get_ledger_data s addrs).1 :=
  ⟨rfl, rfl⟩

/-- C9: block admission does not require the producer's address to belong to
the block's thread — the empty block at slot (1,1), produced by address 0
whose deterministic thread assignment is thread 0, is admitted as Active. -/
theorem c9_producer_thread_free :
    Address.get_thread blockB.producer scenCfg.thread_count = 0 ∧
    blockB.slot.thread = 1 ∧
    (admitBlock s2 blockB).2 = Outcome.admitted ∧
    lookupStatus s3 blockB.id = some Status.Active := by
  decide

/-- C10: `get_endorsements` answers with one optional endorsement id per
endorsement position of the target block and slot: the result has exactly
one entry per position, and a position with no available endorsement is a
`none` entry in place rather than an omission. -/
theorem c10_endorsements_positional (endorsement_count : Nat)
    (avail : BlockId → Slot → Nat → Option EndorsementId)
    (tb : BlockId) (ts : Slot) :
    ((mockPool endorsement_count avail).get_endorsements () tb ts).length =
      endorsement_count ∧
    ∀ i, i < endorsement_count →
      ((mockPool endorsement_count avail).get_endorsements () tb ts)[i]? =
        some (avail tb ts i) := by
  constructor
  · simp [mockPool]
  · intro i hi
    simp [mockPool, List.getElem?_range, hi]

/-- Witness for C10: with three endorsement positions of which only position
1 is available, the query returns a three-entry vector whose position 0 is a
`none` entry in place and whose position 1 carries the endorsement id. -/
theorem c10_endorsements_positional_witness :
    ((mockPool 3 availEx).get_endorsements () 5 ⟨1, 0⟩).length = 3 ∧
    ((mockPool 3 availEx).get_endorsements () 5 ⟨1, 0⟩)[0]? = some none ∧
    ((mockPool 3 availEx).get_endorsements () 5 ⟨1, 0⟩)[1]? = some (some 7) := by
  have h := c10_endorsements_positional 3 availEx 5 ⟨1, 0⟩
  exact ⟨h.1, h.2 0 (by decide), h.2 1 (by decide)⟩
